import Mathlib

/-!
Verification of the Calendify availability engine.

Shallow embedding of the scheduling core of the repository:
* `src/server/actions/schedule.ts` — `getValidTimesFromSchedule`, `getAvailabilities`,
  and `createMeeting` (the slot resolver and the meeting commit workflow);
* `src/schema/schedule.ts` — `scheduleFormSchema` (time-format regex and the
  overlap / ordering refinement);
* `src/lib/utils.ts` — `timeToFloat`;
* `src/server/google/googleCalendar.ts` — the busy-interval mapping of
  `getCalendarEventTimes`.

Modelling conventions:
* An absolute instant is an `Int`, counted in minutes since the Unix epoch
  (1970-01-01 00:00 UTC, a Thursday).  The calendar-item mapping of
  `getCalendarEventTimes` is modelled separately in milliseconds, because
  date-fns `endOfDay` is millisecond-precise.
* A named IANA timezone is modelled as a fixed UTC offset in minutes
  (structure `Tz`).  This is exact for the zones and instants used in the
  claims; DST transitions are not needed by any claim.
* JavaScript `Date` methods (`getDay` via date-fns `isMonday` … `isSunday`,
  `setHours`, `setMinutes`) read and write the wall clock of the **runtime
  environment's** zone; that zone is the explicit parameter `env` below.
* JavaScript `NaN` (from `Number` on a malformed string, producing an
  Invalid Date) is modelled as `Option.none`; every comparison against it is
  false, exactly as in JS.
* The `await`ed collaborators of the server actions (the schedule store and
  the busy-interval source) are passed as oracle functions, so the pure
  data flow of the source is kept while its effects become parameters.
* date-fns v3/v4 semantics are used for `areIntervalsOverlapping` and
  `isWithinInterval`: both normalise an interval's bounds by sorting before
  comparing, overlap is tested strictly, within-ness inclusively.
-/

namespace Calendify

/-- A timezone, modelled as a fixed offset (minutes east of UTC). -/
structure Tz where
  offset : Int
deriving DecidableEq, Repr

/-- The wall-clock reading (minutes since local epoch midnight) of instant `t`
in zone `z`. -/
def wallClock (z : Tz) (t : Int) : Int := t + z.offset

/-- The calendar day (number of whole days since 1970-01-01) that instant `t`
falls on, in zone `z`. -/
def localDayIndex (z : Tz) (t : Int) : Int := (wallClock z t).fdiv 1440

/-- `DAYS_OF_WEEK_IN_ORDER` (src/constants.ts). -/
inductive DayOfWeek
  | monday
  | tuesday
  | wednesday
  | thursday
  | friday
  | saturday
  | sunday
deriving DecidableEq, Repr

/-- The weekday of instant `t` as seen in zone `z`; 1970-01-01 (day index 0)
was a Thursday.  date-fns `isMonday` … `isSunday` — the chain used by
`getAvailabilities` in src/server/actions/schedule.ts — test exactly this
weekday for `z` = the runtime environment's zone. -/
def dayOfWeekIn (z : Tz) (t : Int) : DayOfWeek :=
  match (localDayIndex z t % 7).toNat with
  | 0 => .thursday
  | 1 => .friday
  | 2 => .saturday
  | 3 => .sunday
  | 4 => .monday
  | 5 => .tuesday
  | _ => .wednesday

/-- JavaScript `"…".split(":")` on the character list of a string: split at
every colon, keeping empty pieces. -/
def splitOnColon : List Char → List (List Char)
  | [] => [[]]
  | c :: rest =>
    match splitOnColon rest, decide (c = ':') with
    | r, true => [] :: r
    | [], false => [[c]]
    | h :: t, false => (c :: h) :: t

/-- JavaScript `Number(s)` on the pieces produced by splitting a stored time
string: a nonempty all-digit piece denotes a natural number, anything else is
`NaN` (modelled as `none`).  (`Number` accepts further numeric formats, but
every string reaching this conversion in the repository has been validated by
the `scheduleFormSchema` regex, whose pieces are digit-only.) -/
def jsNumber (l : List Char) : Option Nat :=
  if l ≠ [] ∧ l.all (fun c => c.isDigit) then
    some (l.foldl (fun n c => 10 * n + (c.toNat - 48)) 0)
  else none

/-- `time.split(":").map(Number)` destructured into its first two components,
as done both by `timeToFloat` (src/lib/utils.ts) and by `getAvailabilities`
(src/server/actions/schedule.ts); `none` when either component is `NaN`. -/
def parseHM (time : String) : Option (Nat × Nat) :=
  match (splitOnColon time.data).map jsNumber with
  | some h :: some m :: _ => some (h, m)
  | _ => none

/-- `timeToFloat` (src/lib/utils.ts): `hours + minutes / 60`; `none` models a
`NaN` result. -/
def timeToFloat (time : String) : Option Rat :=
  match parseHM time with
  | some (h, m) => some ((h : Rat) + (m : Rat) / 60)
  | none => none

/-- JavaScript `<` with `NaN` absorbing: any comparison involving `NaN` is
false. -/
def jsLt (a b : Option Rat) : Bool :=
  match a, b with
  | some x, some y => decide (x < y)
  | _, _ => false

/-- JavaScript `>` with `NaN` absorbing. -/
def jsGt (a b : Option Rat) : Bool :=
  match a, b with
  | some x, some y => decide (x > y)
  | _, _ => false

/-- JavaScript `>=` with `NaN` absorbing. -/
def jsGe (a b : Option Rat) : Bool :=
  match a, b with
  | some x, some y => decide (x ≥ y)
  | _, _ => false

/-- One row of `ScheduleAvailabilityTable`: a weekly availability rule with
its stored `HH:MM` time strings. -/
structure ScheduleAvailabilityRow where
  dayOfWeek : DayOfWeek
  startTime : String
  endTime : String
deriving DecidableEq, Repr

/-- A stored schedule with its availabilities (`FullSchedule` in
src/server/actions/schedule.ts). -/
structure FullSchedule where
  timezone : Tz
  availabilities : List ScheduleAvailabilityRow

/-- A Zod validation issue as added by the `superRefine` of
`scheduleFormSchema`: its message and its path `[index, field]`. -/
structure ValidationIssue where
  message : String
  index : Nat
  field : String
deriving DecidableEq, Repr

/-- The `superRefine` of `scheduleFormSchema` (src/schema/schedule.ts): for
each availability (scanned in list order), add an overlap issue on its
`startTime` if any *other* availability on the same day satisfies the
half-open overlap test under `timeToFloat`, and an ordering issue on its
`endTime` if its start is not before its end. -/
def scheduleFormIssues (availabilities : List ScheduleAvailabilityRow) :
    List ValidationIssue :=
  availabilities.enum.flatMap (fun p =>
    let index := p.1
    let availability := p.2
    let overlaps := availabilities.enum.any (fun q =>
      decide (q.1 ≠ index) &&
      decide (q.2.dayOfWeek = availability.dayOfWeek) &&
      jsLt (timeToFloat q.2.startTime) (timeToFloat availability.endTime) &&
      jsGt (timeToFloat q.2.endTime) (timeToFloat availability.startTime))
    (if overlaps then
      [ValidationIssue.mk "Availability overlaps with another" index "startTime"]
     else []) ++
    (if jsGe (timeToFloat availability.startTime) (timeToFloat availability.endTime) then
      [ValidationIssue.mk "End time must be after start time" index "endTime"]
     else []))

/-- A regex character class `[lo-hi]` applied to one character (code-point
range test). -/
def charBetween (lo hi c : Char) : Bool :=
  decide (lo.toNat ≤ c.toNat) && decide (c.toNat ≤ hi.toNat)

/-- The anchored time-format regex of `scheduleFormSchema`
(src/schema/schedule.ts): `^([0-9]|0[0-9]|1[0-9]|2[0-3]):[0-5][0-9]$`.
A match consumes a one- or two-character hour alternative, a literal colon,
and a two-character minute part, so exactly the four- and five-character
shapes below are accepted. -/
def timeRegexAccepts (s : String) : Bool :=
  match s.data with
  | [h, c, m1, m2] =>
      charBetween '0' '9' h && decide (c = ':') &&
      charBetween '0' '5' m1 && charBetween '0' '9' m2
  | [h1, h2, c, m1, m2] =>
      ((decide (h1 = '0') && charBetween '0' '9' h2) ||
       (decide (h1 = '1') && charBetween '0' '9' h2) ||
       (decide (h1 = '2') && charBetween '0' '3' h2)) &&
      decide (c = ':') &&
      charBetween '0' '5' m1 && charBetween '0' '9' m2
  | _ => false

/-- The digit character of value `d` (`'0'` has code point 48). -/
def dchar (d : Nat) : Char := Char.ofNat (48 + d)

/-- date-fns `setMinutes(setHours(date, h), m)` as used by `getAvailabilities`:
replace the hour and minute of `date`'s wall clock in the runtime zone `env`
(the candidate instants fed to the resolver are minute-aligned, so nothing
lives below this model's minute granularity).  Hours beyond 23 roll over into
later days exactly as in JavaScript. -/
def setHoursMinutes (env : Tz) (date : Int) (h m : Nat) : Int :=
  localDayIndex env date * 1440 + 60 * h + m - env.offset

/-- date-fns-tz `fromZonedTime(u, tz)`: reinterpret the wall clock of `u`, as
seen in the runtime zone `env`, as a wall clock of zone `tz`, yielding the
corresponding absolute instant. -/
def fromZonedTime (env tz : Tz) (u : Int) : Int := wallClock env u - tz.offset

/-- The window an availability row denotes on the (runtime-zone) day of
`date`, as built by `getAvailabilities`: parse the stored time strings and
push the wall-clock times through `fromZonedTime`.  A component is `none`
when its stored string does not parse (JavaScript Invalid Date). -/
def availabilityWindow (env tz : Tz) (date : Int) (a : ScheduleAvailabilityRow) :
    Option Int × Option Int :=
  ((parseHM a.startTime).map (fun hm => fromZonedTime env tz (setHoursMinutes env date hm.1 hm.2)),
   (parseHM a.endTime).map (fun hm => fromZonedTime env tz (setHoursMinutes env date hm.1 hm.2)))

/-- `Object.groupBy(schedule.availabilities, a => a.dayOfWeek)` read back with
a missing key giving the empty list (the source's `if (!dayAvailabilities)
return []`); `Object.groupBy` keeps the original relative order inside a
group, which is exactly a filter. -/
def groupedAvailabilities (rows : List ScheduleAvailabilityRow) :
    DayOfWeek → List ScheduleAvailabilityRow :=
  fun d => rows.filter (fun a => decide (a.dayOfWeek = d))

/-- `getAvailabilities` (src/server/actions/schedule.ts): determine the
weekday of `date` through the date-fns `isMonday` … `isSunday` chain — i.e.
in the runtime zone `env` — select that day's rules, and map them to absolute
windows interpreted in the schedule's `timezone`. -/
def getAvailabilities (env : Tz) (grouped : DayOfWeek → List ScheduleAvailabilityRow)
    (date : Int) (timezone : Tz) : List (Option Int × Option Int) :=
  (grouped (dayOfWeekIn env date)).map (availabilityWindow env timezone date)

/-- date-fns v3/v4 `areIntervalsOverlapping` with no options: each interval's
bounds are normalised by sorting, then compared strictly. -/
def areIntervalsOverlapping (ls le rs re : Int) : Bool :=
  decide (min ls le < max rs re) && decide (min rs re < max ls le)

/-- date-fns v3/v4 `isWithinInterval`: bounds normalised by sorting, then an
inclusive containment test; false whenever a bound is an Invalid Date. -/
def isWithinInterval (t : Int) : Option Int × Option Int → Bool
  | (some s, some e) => decide (min s e ≤ t) && decide (t ≤ max s e)
  | _ => false

/-- The test applied to one candidate `intervalDate` inside the filter of
`getValidTimesFromSchedule`: no busy interval overlaps the tentative meeting
interval, and the tentative interval lies within some availability window of
the candidate's day. -/
def candidatePasses (env : Tz) (schedule : FullSchedule) (eventTimes : List (Int × Int))
    (durationInMinutes : Nat) (intervalDate : Int) : Bool :=
  let availabilities :=
    getAvailabilities env (groupedAvailabilities schedule.availabilities)
      intervalDate schedule.timezone
  let eventIntervalEnd := intervalDate + (durationInMinutes : Int)
  eventTimes.all (fun eventTime =>
    !areIntervalsOverlapping eventTime.1 eventTime.2 intervalDate eventIntervalEnd) &&
  availabilities.any (fun availability =>
    isWithinInterval intervalDate availability &&
    isWithinInterval eventIntervalEnd availability)

/-- `getValidTimesFromSchedule` (src/server/actions/schedule.ts), the slot
resolver.  The two `await`ed collaborators are oracles: `getScheduleOracle`
models `getSchedule(userId)` and `calendarEventsOracle` models
`getCalendarEventTimes(userId, {start, end})`.  The source reads
`timesInOrder[0]` and `timesInOrder.at(-1)` and returns `[]` when either is
missing, before any lookup. -/
def getValidTimesFromSchedule (env : Tz) (timesInOrder : List Int)
    (getScheduleOracle : Unit → Option FullSchedule)
    (calendarEventsOracle : Int → Int → List (Int × Int))
    (durationInMinutes : Nat) : List Int :=
  match timesInOrder.head?, timesInOrder.getLast? with
  | some start, some stop =>
    match getScheduleOracle () with
    | none => []
    | some schedule =>
      let eventTimes := calendarEventsOracle start stop
      timesInOrder.filter (candidatePasses env schedule eventTimes durationInMinutes)
  | _, _ => []

/-- An `EventTable` row as far as `createMeeting` uses it. -/
structure Event where
  name : String
  durationInMinutes : Nat

/-- The validated `meetingActionSchema` payload as far as `createMeeting`
uses it (`startTime` is the `Date` submitted by the guest, whose wall clock
`fromZonedTime` reinterprets in `timezone`). -/
structure MeetingData where
  clerkUserId : String
  eventId : String
  startTime : Int
  timezone : Tz

/-- The observable payload of a `createCalendarEvent` call (the calendar
write side effect of the commit workflow). -/
structure CalendarWrite where
  startTime : Int
  durationInMinutes : Nat
  eventName : String
deriving DecidableEq, Repr

/-- The value `createMeeting` returns on success. -/
structure MeetingResult where
  clerkUserId : String
  eventId : String
  startTime : Int
deriving DecidableEq, Repr

/-- `createMeeting` (src/server/actions/meetings.ts): validate, look up the
event, re-resolve the single chosen instant through
`getValidTimesFromSchedule` (which fetches busy intervals through its
oracle — the fresh fetch), and only then attempt the calendar write.  The
first component of the result is the trace of attempted calendar writes; the
second is the thrown-or-returned outcome.  `parseOk` models the
`meetingActionSchema.safeParse` verdict and `calendarWriteOk` the success of
the Google API call. -/
def createMeeting (env : Tz) (parseOk : Bool) (eventLookup : Option Event)
    (getScheduleOracle : Unit → Option FullSchedule)
    (calendarEventsOracle : Int → Int → List (Int × Int))
    (calendarWriteOk : Bool) (data : MeetingData) :
    List CalendarWrite × Except String MeetingResult :=
  if !parseOk then
    ([], Except.error "Failed to create meeting: Invalid data.")
  else
    match eventLookup with
    | none => ([], Except.error "Failed to create meeting: Event not found.")
    | some event =>
      let startInTimezone := fromZonedTime env data.timezone data.startTime
      let validTimes :=
        getValidTimesFromSchedule env [startInTimezone] getScheduleOracle
          calendarEventsOracle event.durationInMinutes
      if validTimes.length = 0 then
        ([], Except.error "Failed to create meeting: Selected time is not valid.")
      else
        let write : CalendarWrite :=
          CalendarWrite.mk startInTimezone event.durationInMinutes event.name
        if calendarWriteOk then
          ([write], Except.ok (MeetingResult.mk data.clerkUserId data.eventId data.startTime))
        else
          ([write], Except.error "Failed to create meeting: calendar write failed")

/-- `event.start` / `event.end` of a Google calendar item: an all-day marker
(`date`) or a precise one (`dateTime`), each possibly absent. -/
structure EventDateTime where
  date : Option String
  dateTime : Option String
deriving DecidableEq, Repr

/-- A fetched Google calendar item as far as `getCalendarEventTimes` reads
it.  The source's `end` field is named `stop` (`end` is a Lean keyword). -/
structure CalendarItem where
  start : Option EventDateTime
  stop : Option EventDateTime
deriving DecidableEq, Repr

/-- JavaScript truthiness of an optional string field: `undefined`, `null`
and `""` are falsy. -/
def truthyStr : Option String → Bool
  | some s => !s.isEmpty
  | none => false

/-- Milliseconds per day (the calendar-item mapping is modelled in
milliseconds because date-fns `endOfDay` is millisecond-precise). -/
def msPerDay : Int := 86400000

/-- date-fns `startOfDay` in the runtime zone `env`, instants in
milliseconds. -/
def startOfDayMs (env : Tz) (t : Int) : Int :=
  (t + env.offset * 60000).fdiv msPerDay * msPerDay - env.offset * 60000

/-- date-fns `endOfDay` in the runtime zone `env`: 23:59:59.999 of the same
local day. -/
def endOfDayMs (env : Tz) (t : Int) : Int := startOfDayMs env t + (msPerDay - 1)

/-- The per-item conversion inside `getCalendarEventTimes`
(src/server/google/googleCalendar.ts).  `parse` models the JavaScript `Date`
constructor on the item's strings (milliseconds since epoch).  The `&&`
guards are JavaScript truthiness tests on the optionally-chained fields. -/
def convertCalendarItem (parse : String → Int) (env : Tz) (item : CalendarItem) :
    Option (Int × Int) :=
  if truthyStr (item.start.bind EventDateTime.date) &&
     truthyStr (item.stop.bind EventDateTime.date) then
    some (startOfDayMs env (parse ((item.start.bind EventDateTime.date).getD "")),
          endOfDayMs env (parse ((item.stop.bind EventDateTime.date).getD "")))
  else if truthyStr (item.start.bind EventDateTime.dateTime) &&
          truthyStr (item.stop.bind EventDateTime.dateTime) then
    some (parse ((item.start.bind EventDateTime.dateTime).getD ""),
          parse ((item.stop.bind EventDateTime.dateTime).getD ""))
  else
    none

/-- The pure mapping performed by `getCalendarEventTimes` on the fetched
items: `items?.map(convert).filter(defined) || []` is a `filterMap`, with a
`none` item list modelling an absent `events.data.items`. -/
def getCalendarEventTimes (parse : String → Int) (env : Tz)
    (items : Option (List CalendarItem)) : List (Int × Int) :=
  match items with
  | some l => l.filterMap (convertCalendarItem parse env)
  | none => []

/-- The all-four-fields calendar item used to separate the all-day branch
from the timed branch. -/
def bothKindsItem : CalendarItem :=
  CalendarItem.mk (some (EventDateTime.mk (some "d") (some "t1")))
    (some (EventDateTime.mk (some "d") (some "t2")))

/-- A concrete stand-in for the JavaScript `Date` constructor on the strings
of `bothKindsItem`. -/
def bothKindsParse : String → Int :=
  fun s => if s = "t1" then 100 else if s = "t2" then 200 else 0

/-! ### Helper lemmas about the resolver -/

theorem getValidTimes_nil (env : Tz) (schedO : Unit → Option FullSchedule)
    (busyO : Int → Int → List (Int × Int)) (d : Nat) :
    getValidTimesFromSchedule env [] schedO busyO d = [] := rfl

theorem getValidTimes_cons (env : Tz) (a : Int) (l : List Int)
    (schedO : Unit → Option FullSchedule) (busyO : Int → Int → List (Int × Int)) (d : Nat) :
    getValidTimesFromSchedule env (a :: l) schedO busyO d =
      match schedO () with
      | none => []
      | some schedule =>
          (a :: l).filter
            (candidatePasses env schedule
              (busyO a ((a :: l).getLast (List.cons_ne_nil a l))) d) := rfl

theorem getValidTimes_sublist (env : Tz) (times : List Int)
    (schedO : Unit → Option FullSchedule) (busyO : Int → Int → List (Int × Int)) (d : Nat) :
    List.Sublist (getValidTimesFromSchedule env times schedO busyO d) times := by
  cases times with
  | nil => exact List.Sublist.refl _
  | cons a l =>
    rw [getValidTimes_cons]
    rcases schedO () with _ | sched
    · exact List.nil_sublist _
    · exact List.filter_sublist _

theorem mem_getValidTimes_const {env : Tz} {times : List Int} {sched : FullSchedule}
    {busy : List (Int × Int)} {d : Nat} {t : Int}
    (ht : t ∈ getValidTimesFromSchedule env times (fun _ => some sched) (fun _ _ => busy) d) :
    t ∈ times ∧ candidatePasses env sched busy d t = true := by
  cases times with
  | nil => simp [getValidTimes_nil] at ht
  | cons a l =>
    rw [getValidTimes_cons] at ht
    exact List.mem_filter.mp ht

theorem candidatePasses_busy {env : Tz} {sched : FullSchedule} {busy : List (Int × Int)}
    {d : Nat} {t : Int} {b : Int × Int}
    (hp : candidatePasses env sched busy d t = true) (hb : b ∈ busy) :
    areIntervalsOverlapping b.1 b.2 t (t + (d : Int)) = false := by
  unfold candidatePasses at hp
  simp only [Bool.and_eq_true, List.all_eq_true] at hp
  have h := hp.1 b hb
  simpa using h

theorem candidatePasses_avail {env : Tz} {sched : FullSchedule} {busy : List (Int × Int)}
    {d : Nat} {t : Int}
    (hp : candidatePasses env sched busy d t = true) :
    ∃ w ∈ getAvailabilities env (groupedAvailabilities sched.availabilities) t
        sched.timezone,
      isWithinInterval t w = true ∧ isWithinInterval (t + (d : Int)) w = true := by
  unfold candidatePasses at hp
  simp only [Bool.and_eq_true, List.any_eq_true] at hp
  obtain ⟨w, hw, hww⟩ := hp.2
  exact ⟨w, hw, hww⟩

theorem areIntervalsOverlapping_eq_true {ls le rs re : Int} :
    areIntervalsOverlapping ls le rs re = true ↔
      min ls le < max rs re ∧ min rs re < max ls le := by
  simp [areIntervalsOverlapping]

theorem isWithinInterval_some_eq_true {t s e : Int} :
    isWithinInterval t (some s, some e) = true ↔ min s e ≤ t ∧ t ≤ max s e := by
  simp [isWithinInterval]

theorem isWithinInterval_shape {t : Int} {w : Option Int × Option Int}
    (h : isWithinInterval t w = true) : ∃ s e : Int, w = (some s, some e) := by
  rcases w with ⟨s, e⟩
  rcases s with _ | s
  · simp [isWithinInterval] at h
  · rcases e with _ | e
    · simp [isWithinInterval] at h
    · exact ⟨s, e, rfl⟩

theorem candidatePasses_antitone {env : Tz} {sched : FullSchedule}
    {busy : List (Int × Int)} {d1 d2 : Nat} (hd : d1 ≤ d2) (t : Int)
    (hp : candidatePasses env sched busy d2 t = true) :
    candidatePasses env sched busy d1 t = true := by
  have hdle : t + (d1 : Int) ≤ t + (d2 : Int) := by
    have : (d1 : Int) ≤ (d2 : Int) := Int.ofNat_le.mpr hd
    omega
  unfold candidatePasses at hp ⊢
  simp only [Bool.and_eq_true, List.all_eq_true, List.any_eq_true] at hp ⊢
  obtain ⟨hbusy, w, hw, hww⟩ := hp
  refine ⟨?_, w, hw, ?_⟩
  · intro b hb
    have h2 := hbusy b hb
    simp only [Bool.not_eq_true'] at h2 ⊢
    rcases h1 : areIntervalsOverlapping b.1 b.2 t (t + (d1 : Int)) with _ | _
    · rfl
    · exfalso
      obtain ⟨ha, hc⟩ := areIntervalsOverlapping_eq_true.mp h1
      have hmin1 : min t (t + (d1 : Int)) = t :=
        min_eq_left (le_add_of_nonneg_right (Int.ofNat_nonneg d1))
      have hmin2 : min t (t + (d2 : Int)) = t :=
        min_eq_left (le_add_of_nonneg_right (Int.ofNat_nonneg d2))
      have hy : areIntervalsOverlapping b.1 b.2 t (t + (d2 : Int)) = true :=
        areIntervalsOverlapping_eq_true.mpr
          ⟨lt_of_lt_of_le ha (max_le_max le_rfl hdle),
           by rw [hmin2]; rw [hmin1] at hc; exact hc⟩
      rw [h2] at hy
      exact Bool.false_ne_true hy
  · obtain ⟨s, e, rfl⟩ := isWithinInterval_shape hww.1
    obtain ⟨hs1, hs2⟩ := isWithinInterval_some_eq_true.mp hww.1
    obtain ⟨he1, he2⟩ := isWithinInterval_some_eq_true.mp hww.2
    have hd1 : (0 : Int) ≤ ((d1 : Nat) : Int) := Int.ofNat_nonneg d1
    exact ⟨isWithinInterval_some_eq_true.mpr ⟨hs1, hs2⟩,
           isWithinInterval_some_eq_true.mpr ⟨le_trans hs1 (by omega), le_trans hdle he2⟩⟩

/-! ### Claim theorems -/

/-- Claim C8: the resolver's output is an order-preserving subsequence of the
candidate list, and no instant is returned more often than it occurs among
the candidates. -/
theorem c8_subsequence (env : Tz) (times : List Int)
    (schedO : Unit → Option FullSchedule) (busyO : Int → Int → List (Int × Int)) (d : Nat) :
    List.Sublist (getValidTimesFromSchedule env times schedO busyO d) times ∧
    ∀ t : Int,
      (getValidTimesFromSchedule env times schedO busyO d).count t ≤ times.count t :=
  ⟨getValidTimes_sublist env times schedO busyO d,
   fun t => (getValidTimes_sublist env times schedO busyO d).count_le t⟩

/-- Claim C5: with candidates, rules, timezone and busy intervals fixed, the
output for a larger duration is an (order-preserving) sub-collection of the
output for a smaller one, so increasing the duration never adds instants and
never increases the size of the output. -/
theorem c5_duration_antitone (env : Tz) (times : List Int)
    (schedO : Unit → Option FullSchedule) (busyO : Int → Int → List (Int × Int))
    {d1 d2 : Nat} (hd : d1 ≤ d2) :
    List.Sublist (getValidTimesFromSchedule env times schedO busyO d2)
      (getValidTimesFromSchedule env times schedO busyO d1) := by
  cases times with
  | nil => exact List.Sublist.refl _
  | cons a l =>
    rw [getValidTimes_cons, getValidTimes_cons]
    rcases schedO () with _ | sched
    · exact List.Sublist.refl _
    · exact List.monotone_filter_right _ (fun t => candidatePasses_antitone hd t)

/-- Witness for C5: a concrete run where the 60-minute output is a sublist of
the 30-minute output. -/
theorem c5_duration_antitone_witness :
    List.Sublist
      (getValidTimesFromSchedule (Tz.mk 0) [6330, 6360]
        (fun _ => some (FullSchedule.mk (Tz.mk 0)
          [ScheduleAvailabilityRow.mk DayOfWeek.monday "09:00" "17:00"]))
        (fun _ _ => []) 60)
      (getValidTimesFromSchedule (Tz.mk 0) [6330, 6360]
        (fun _ => some (FullSchedule.mk (Tz.mk 0)
          [ScheduleAvailabilityRow.mk DayOfWeek.monday "09:00" "17:00"]))
        (fun _ _ => []) 30) :=
  c5_duration_antitone (Tz.mk 0) [6330, 6360]
    (fun _ => some (FullSchedule.mk (Tz.mk 0)
      [ScheduleAvailabilityRow.mk DayOfWeek.monday "09:00" "17:00"]))
    (fun _ _ => []) (by decide)

/-- Claim C6: an empty candidate list yields the empty list whatever the
schedule store and the busy-interval source would answer (the source returns
before either lookup); an absent schedule and an empty weekly-rule set also
yield the empty list, as total, non-throwing outcomes. -/
theorem c6_degenerate_inputs (env : Tz) (d : Nat) :
    (∀ (schedO : Unit → Option FullSchedule) (busyO : Int → Int → List (Int × Int)),
      getValidTimesFromSchedule env [] schedO busyO d = []) ∧
    (∀ (times : List Int) (busyO : Int → Int → List (Int × Int)),
      getValidTimesFromSchedule env times (fun _ => none) busyO d = []) ∧
    (∀ (times : List Int) (tz : Tz) (busyO : Int → Int → List (Int × Int)),
      getValidTimesFromSchedule env times (fun _ => some (FullSchedule.mk tz []))
        busyO d = []) := by
  refine ⟨fun _ _ => rfl, fun times busyO => ?_, fun times tz busyO => ?_⟩
  · cases times <;> rfl
  · cases times with
    | nil => rfl
    | cons a l =>
      rw [getValidTimes_cons]
      simp [candidatePasses, getAvailabilities, groupedAvailabilities]

/-- Claim C3: no instant kept by the resolver has its tentative interval
overlapping any busy interval under the strict half-open test; the witness
shows that a touching busy interval does not disqualify a candidate. -/
theorem c3_no_busy_overlap (env tz : Tz) (rows : List ScheduleAvailabilityRow)
    (times : List Int) (busy : List (Int × Int)) (d : Nat) (t : Int) (b : Int × Int)
    (ht : t ∈ getValidTimesFromSchedule env times
      (fun _ => some (FullSchedule.mk tz rows)) (fun _ _ => busy) d)
    (hb : b ∈ busy) :
    ¬ (b.1 < t + (d : Int) ∧ b.2 > t) := by
  obtain ⟨-, hp⟩ := mem_getValidTimes_const ht
  have hno := candidatePasses_busy hp hb
  rintro ⟨h1, h2⟩
  have hy : areIntervalsOverlapping b.1 b.2 t (t + (d : Int)) = true :=
    areIntervalsOverlapping_eq_true.mpr
      ⟨lt_of_le_of_lt (min_le_left _ _) (lt_of_lt_of_le h1 (le_max_right _ _)),
       lt_of_le_of_lt (min_le_left _ _) (lt_of_lt_of_le h2 (le_max_right _ _))⟩
  rw [hno] at hy
  exact Bool.false_ne_true hy

/-- Witness for C3 (scenario B of the spec, shifted to epoch minutes:
Monday 1970-01-05, rule monday 09:00–17:00 UTC, busy 10:00–10:30, duration
30): candidate 09:30 (minute 6330) touches the busy interval and is kept,
candidate 10:00 (minute 6360) overlaps it and is rejected; the kept instant
satisfies the no-overlap property via c3_no_busy_overlap. -/
theorem c3_no_busy_overlap_witness :
    getValidTimesFromSchedule (Tz.mk 0) [6330, 6360]
      (fun _ => some (FullSchedule.mk (Tz.mk 0)
        [ScheduleAvailabilityRow.mk DayOfWeek.monday "09:00" "17:00"]))
      (fun _ _ => [((6360 : Int), (6390 : Int))]) 30 = [6330] ∧
    ¬ ((6360 : Int) < 6330 + ((30 : Nat) : Int) ∧ (6390 : Int) > 6330) :=
  ⟨by decide,
   c3_no_busy_overlap (Tz.mk 0) (Tz.mk 0)
     [ScheduleAvailabilityRow.mk DayOfWeek.monday "09:00" "17:00"]
     [6330, 6360] [((6360 : Int), (6390 : Int))] 30 6330 ((6360 : Int), (6390 : Int))
     (by decide) (by decide)⟩

/-- Claim C4: every instant kept by the resolver has its tentative interval
fully contained in at least one availability window of its (code-computed)
day, provided the stored rules are well-formed (start before end), exactly
as `scheduleFormSchema` guarantees for everything it lets into the store. -/
theorem c4_containment (env tz : Tz) (rows : List ScheduleAvailabilityRow)
    (times : List Int) (busy : List (Int × Int)) (d : Nat) (t : Int)
    (hwf : ∀ r ∈ rows, ∀ sh sm eh em : Nat, parseHM r.startTime = some (sh, sm) →
      parseHM r.endTime = some (eh, em) → 60 * sh + sm < 60 * eh + em)
    (ht : t ∈ getValidTimesFromSchedule env times
      (fun _ => some (FullSchedule.mk tz rows)) (fun _ _ => busy) d) :
    ∃ w ∈ getAvailabilities env (groupedAvailabilities rows) t tz,
      ∃ ws we : Int, w = (some ws, some we) ∧ ws ≤ t ∧ t + (d : Int) ≤ we := by
  obtain ⟨-, hp⟩ := mem_getValidTimes_const ht
  obtain ⟨w, hw, h1, h2⟩ := candidatePasses_avail hp
  obtain ⟨s, e, rfl⟩ := isWithinInterval_shape h1
  refine ⟨(some s, some e), hw, s, e, rfl, ?_, ?_⟩
  all_goals
    obtain ⟨r, hr, hreq⟩ := List.mem_map.mp hw
    have hrrows : r ∈ rows := (List.mem_filter.mp hr).1
    obtain ⟨heq1, heq2⟩ := Prod.mk.injEq .. |>.mp hreq
    obtain ⟨⟨sh, sm⟩, hps, hfs⟩ := Option.map_eq_some'.mp heq1
    obtain ⟨⟨eh, em⟩, hpe, hfe⟩ := Option.map_eq_some'.mp heq2
    have hlt := hwf r hrrows sh sm eh em hps hpe
    have hse : s < e := by
      rw [← hfs, ← hfe]
      simp only [fromZonedTime, setHoursMinutes, wallClock]
      omega
    have hmin : min s e = s := min_eq_left (le_of_lt hse)
    have hmax : max s e = e := max_eq_right (le_of_lt hse)
  · obtain ⟨hc1, -⟩ := isWithinInterval_some_eq_true.mp h1
    rw [hmin] at hc1
    exact hc1
  · obtain ⟨-, hc2⟩ := isWithinInterval_some_eq_true.mp h2
    rw [hmax] at hc2
    exact hc2

/-- Witness for C4: the concrete run with rule monday 09:00–17:00 UTC and
candidate Monday 09:30 (minute 6330), duration 30. -/
theorem c4_containment_witness :
    ∃ w ∈ getAvailabilities (Tz.mk 0)
        (groupedAvailabilities
          [ScheduleAvailabilityRow.mk DayOfWeek.monday "09:00" "17:00"])
        6330 (Tz.mk 0),
      ∃ ws we : Int, w = (some ws, some we) ∧ ws ≤ 6330 ∧
        6330 + ((30 : Nat) : Int) ≤ we := by
  refine c4_containment (Tz.mk 0) (Tz.mk 0)
    [ScheduleAvailabilityRow.mk DayOfWeek.monday "09:00" "17:00"]
    [6330] [] 30 6330 ?_ (by decide)
  intro r hr sh sm eh em hs he
  simp only [List.mem_singleton] at hr
  subst hr
  rw [show parseHM "09:00" = some (9, 0) from by decide] at hs
  rw [show parseHM "17:00" = some (17, 0) from by decide] at he
  injection hs with hs
  injection he with he
  cases hs
  cases he
  omega

/-- Claim C1 (code bug): the source computes the day-of-week of a candidate
through date-fns isMonday…isSunday, i.e. in the runtime environment's zone,
not in the schedule's timezone.  With the runtime in UTC and a New York
(UTC-05:00) schedule holding a monday 19:00–23:00 rule, the candidate at
epoch minute 7260 — Monday 1970-01-05 20:00 New York, Tuesday 01:00 UTC — is
classified as tuesday and rejected, although its schedule-timezone weekday is
monday and the monday window [7200, 7440] contains the whole tentative
interval, so the spec requires it to be kept. -/
theorem c1_day_of_week_uses_runtime_zone :
    dayOfWeekIn (Tz.mk (-300)) 7260 = DayOfWeek.monday ∧
    dayOfWeekIn (Tz.mk 0) 7260 = DayOfWeek.tuesday ∧
    getValidTimesFromSchedule (Tz.mk 0) [7260]
      (fun _ => some (FullSchedule.mk (Tz.mk (-300))
        [ScheduleAvailabilityRow.mk DayOfWeek.monday "19:00" "23:00"]))
      (fun _ _ => []) 30 = [] ∧
    availabilityWindow (Tz.mk (-300)) (Tz.mk (-300)) 7260
      (ScheduleAvailabilityRow.mk DayOfWeek.monday "19:00" "23:00") =
      (some 7200, some 7440) ∧
    isWithinInterval 7260 (some 7200, some 7440) = true ∧
    isWithinInterval (7260 + ((30 : Nat) : Int)) (some 7200, some 7440) = true := by
  decide

/-- Claim C7: `createMeeting` re-resolves the single chosen instant through
the resolver with the busy intervals its oracle fetches at commit time; when
that re-check is empty it returns an error and attempts no calendar write,
and any attempted calendar write implies the re-check returned exactly the
chosen instant and the write carries that instant. -/
theorem c7_commit_recheck (env : Tz) (parseOk : Bool) (event : Event)
    (schedO : Unit → Option FullSchedule) (busyO : Int → Int → List (Int × Int))
    (calOk : Bool) (data : MeetingData) :
    (getValidTimesFromSchedule env [fromZonedTime env data.timezone data.startTime]
        schedO busyO event.durationInMinutes = [] →
      (createMeeting env parseOk (some event) schedO busyO calOk data).1 = [] ∧
      ∃ msg, (createMeeting env parseOk (some event) schedO busyO calOk data).2 =
        Except.error msg) ∧
    (∀ w, w ∈ (createMeeting env parseOk (some event) schedO busyO calOk data).1 →
      getValidTimesFromSchedule env [fromZonedTime env data.timezone data.startTime]
          schedO busyO event.durationInMinutes =
        [fromZonedTime env data.timezone data.startTime] ∧
      w = CalendarWrite.mk (fromZonedTime env data.timezone data.startTime)
            event.durationInMinutes event.name) := by
  cases parseOk with
  | false =>
    refine ⟨fun _ => ⟨rfl, "Failed to create meeting: Invalid data.", rfl⟩, ?_⟩
    intro w hw
    simp only [createMeeting] at hw
    simp at hw
  | true =>
    by_cases hv : (getValidTimesFromSchedule env
        [fromZonedTime env data.timezone data.startTime] schedO busyO
        event.durationInMinutes).length = 0
    · constructor
      · intro _
        refine ⟨?_, "Failed to create meeting: Selected time is not valid.", ?_⟩ <;>
          · simp only [createMeeting, Bool.not_true]
            rw [if_neg (by simp)]
            rw [if_pos hv]
      · intro w hw
        simp only [createMeeting, Bool.not_true] at hw
        rw [if_neg (by simp)] at hw
        rw [if_pos hv] at hw
        simp at hw
    · have hvt : getValidTimesFromSchedule env
          [fromZonedTime env data.timezone data.startTime] schedO busyO
          event.durationInMinutes =
          [fromZonedTime env data.timezone data.startTime] := by
        have hsub := getValidTimes_sublist env
          [fromZonedTime env data.timezone data.startTime] schedO busyO
          event.durationInMinutes
        rcases he : getValidTimesFromSchedule env
            [fromZonedTime env data.timezone data.startTime] schedO busyO
            event.durationInMinutes with _ | ⟨a, l⟩
        · exact absurd (by rw [he]; rfl) hv
        · rw [he] at hsub
          rcases List.sublist_singleton.mp hsub with h | h
          · exact absurd h (by simp)
          · exact h
      constructor
      · intro h0
        rw [h0] at hv
        exact absurd rfl hv
      · intro w hw
        refine ⟨hvt, ?_⟩
        simp only [createMeeting, Bool.not_true] at hw
        rw [if_neg (by simp)] at hw
        rw [if_neg hv] at hw
        cases calOk with
        | false => simpa using hw
        | true => simpa using hw

/-- Witness for C7: with no stored schedule the re-check is empty and the
commit is rejected with no calendar write; with the monday 09:00–17:00 UTC
schedule and chosen instant minute 6330 the re-check returns the instant and
the attempted write carries it. -/
theorem c7_commit_recheck_witness :
    ((createMeeting (Tz.mk 0) true (Event.mk "intro call" 30) (fun _ => none)
        (fun _ _ => []) true (MeetingData.mk "user1" "event1" 6330 (Tz.mk 0))).1 = [] ∧
      ∃ msg, (createMeeting (Tz.mk 0) true (Event.mk "intro call" 30) (fun _ => none)
        (fun _ _ => []) true (MeetingData.mk "user1" "event1" 6330 (Tz.mk 0))).2 =
          Except.error msg) ∧
    (getValidTimesFromSchedule (Tz.mk 0) [fromZonedTime (Tz.mk 0) (Tz.mk 0) 6330]
        (fun _ => some (FullSchedule.mk (Tz.mk 0)
          [ScheduleAvailabilityRow.mk DayOfWeek.monday "09:00" "17:00"]))
        (fun _ _ => []) 30 = [fromZonedTime (Tz.mk 0) (Tz.mk 0) 6330] ∧
      CalendarWrite.mk 6330 30 "intro call" =
        CalendarWrite.mk (fromZonedTime (Tz.mk 0) (Tz.mk 0) 6330) 30 "intro call") :=
  ⟨(c7_commit_recheck (Tz.mk 0) true (Event.mk "intro call" 30) (fun _ => none)
      (fun _ _ => []) true (MeetingData.mk "user1" "event1" 6330 (Tz.mk 0))).1
    (by decide),
   (c7_commit_recheck (Tz.mk 0) true (Event.mk "intro call" 30)
      (fun _ => some (FullSchedule.mk (Tz.mk 0)
        [ScheduleAvailabilityRow.mk DayOfWeek.monday "09:00" "17:00"]))
      (fun _ _ => []) true (MeetingData.mk "user1" "event1" 6330 (Tz.mk 0))).2
    (CalendarWrite.mk 6330 30 "intro call") (by decide)⟩

section
attribute [local semireducible] Rat.add Rat.mul Rat.inv

/-- Claim C2 (counterexample): for the rule list [monday 09:00–11:00, monday
10:00–12:00] the validation does not report exactly one overlap issue — the
symmetric overlap test fires for both rules while each is being validated. -/
theorem c2_counterexample :
    ¬ ((scheduleFormIssues
        [ScheduleAvailabilityRow.mk DayOfWeek.monday "09:00" "11:00",
         ScheduleAvailabilityRow.mk DayOfWeek.monday "10:00" "12:00"]).countP
        (fun i => decide (i.message = "Availability overlaps with another")) = 1) := by
  decide

/-- Claim C2 (amended): for the rule list [monday 09:00–11:00, monday
10:00–12:00] the validation reports exactly two overlap issues, one attached
to each rule's start-time field, emitted in the order the rules are scanned;
the rule being validated is the one flagged. -/
theorem c2_overlap_issue_per_offending_rule :
    scheduleFormIssues
      [ScheduleAvailabilityRow.mk DayOfWeek.monday "09:00" "11:00",
       ScheduleAvailabilityRow.mk DayOfWeek.monday "10:00" "12:00"] =
      [ValidationIssue.mk "Availability overlaps with another" 0 "startTime",
       ValidationIssue.mk "Availability overlaps with another" 1 "startTime"] := by
  decide

end

/-- Claim C10 (counterexample): an item carrying both `date` and `dateTime`
fields on both ends is a "timed item (dateTime start and end)" in the
claim's words, yet the code converts it through the all-day branch, not into
exactly the pair of its `dateTime` instants. -/
theorem c10_counterexample :
    getCalendarEventTimes bothKindsParse (Tz.mk 0) (some [bothKindsItem]) =
      [((0 : Int), (86399999 : Int))] ∧
    ¬ (getCalendarEventTimes bothKindsParse (Tz.mk 0) (some [bothKindsItem]) =
        [(bothKindsParse "t1", bothKindsParse "t2")]) := by
  decide

/-- Claim C10 (amended): the fetched items are converted one-for-one by a
filterMap; an item with both (nonempty) `date` fields — even one that also
carries `dateTime` fields — becomes the all-day interval
[startOfDay(start.date), endOfDay(end.date)] in the runtime zone; an item
with both `dateTime` fields and not both `date` fields becomes exactly
[start.dateTime, end.dateTime]; every other item is silently dropped. -/
theorem c10_item_mapping (parse : String → Int) (env : Tz) (items : List CalendarItem) :
    getCalendarEventTimes parse env (some items) =
      items.filterMap (convertCalendarItem parse env) ∧
    getCalendarEventTimes parse env none = [] ∧
    (∀ item : CalendarItem,
      truthyStr (item.start.bind EventDateTime.date) = true →
      truthyStr (item.stop.bind EventDateTime.date) = true →
      convertCalendarItem parse env item =
        some (startOfDayMs env (parse ((item.start.bind EventDateTime.date).getD "")),
              endOfDayMs env (parse ((item.stop.bind EventDateTime.date).getD "")))) ∧
    (∀ item : CalendarItem,
      ¬ (truthyStr (item.start.bind EventDateTime.date) = true ∧
         truthyStr (item.stop.bind EventDateTime.date) = true) →
      truthyStr (item.start.bind EventDateTime.dateTime) = true →
      truthyStr (item.stop.bind EventDateTime.dateTime) = true →
      convertCalendarItem parse env item =
        some (parse ((item.start.bind EventDateTime.dateTime).getD ""),
              parse ((item.stop.bind EventDateTime.dateTime).getD ""))) ∧
    (∀ item : CalendarItem,
      ¬ (truthyStr (item.start.bind EventDateTime.date) = true ∧
         truthyStr (item.stop.bind EventDateTime.date) = true) →
      ¬ (truthyStr (item.start.bind EventDateTime.dateTime) = true ∧
         truthyStr (item.stop.bind EventDateTime.dateTime) = true) →
      convertCalendarItem parse env item = none) := by
  refine ⟨rfl, rfl, ?_, ?_, ?_⟩
  · intro item h1 h2
    simp [convertCalendarItem, h1, h2]
  · intro item hnd h1 h2
    have hdateF : (truthyStr (item.start.bind EventDateTime.date) &&
        truthyStr (item.stop.bind EventDateTime.date)) = false := by
      rcases hx : truthyStr (item.start.bind EventDateTime.date) with _ | _
      · simp
      · rcases hy : truthyStr (item.stop.bind EventDateTime.date) with _ | _
        · simp
        · exact absurd ⟨hx, hy⟩ hnd
    simp [convertCalendarItem, hdateF, h1, h2]
  · intro item hnd hndt
    have hdateF : (truthyStr (item.start.bind EventDateTime.date) &&
        truthyStr (item.stop.bind EventDateTime.date)) = false := by
      rcases hx : truthyStr (item.start.bind EventDateTime.date) with _ | _
      · simp
      · rcases hy : truthyStr (item.stop.bind EventDateTime.date) with _ | _
        · simp
        · exact absurd ⟨hx, hy⟩ hnd
    have hdtF : (truthyStr (item.start.bind EventDateTime.dateTime) &&
        truthyStr (item.stop.bind EventDateTime.dateTime)) = false := by
      rcases hx : truthyStr (item.start.bind EventDateTime.dateTime) with _ | _
      · simp
      · rcases hy : truthyStr (item.stop.bind EventDateTime.dateTime) with _ | _
        · simp
        · exact absurd ⟨hx, hy⟩ hndt
    simp [convertCalendarItem, hdateF, hdtF]

/-- Witness for C10 (amended): the three conversion clauses evaluated on
concrete items — an all-day item, a timed item, and a half-specified item
that is dropped. -/
theorem c10_item_mapping_witness :
    convertCalendarItem bothKindsParse (Tz.mk 0)
      (CalendarItem.mk (some (EventDateTime.mk (some "d") none))
        (some (EventDateTime.mk (some "d") none))) =
      some ((0 : Int), (86399999 : Int)) ∧
    convertCalendarItem bothKindsParse (Tz.mk 0)
      (CalendarItem.mk (some (EventDateTime.mk none (some "t1")))
        (some (EventDateTime.mk none (some "t2")))) =
      some ((100 : Int), (200 : Int)) ∧
    convertCalendarItem bothKindsParse (Tz.mk 0)
      (CalendarItem.mk (some (EventDateTime.mk (some "d") none)) none) = none := by
  refine ⟨?_, ?_, ?_⟩
  · have h := (c10_item_mapping bothKindsParse (Tz.mk 0) []).2.2.1
      (CalendarItem.mk (some (EventDateTime.mk (some "d") none))
        (some (EventDateTime.mk (some "d") none))) (by decide) (by decide)
    rw [h]
    decide
  · have h := (c10_item_mapping bothKindsParse (Tz.mk 0) []).2.2.2.1
      (CalendarItem.mk (some (EventDateTime.mk none (some "t1")))
        (some (EventDateTime.mk none (some "t2"))))
      (by decide) (by decide) (by decide)
    rw [h]
    decide
  · exact (c10_item_mapping bothKindsParse (Tz.mk 0) []).2.2.2.2
      (CalendarItem.mk (some (EventDateTime.mk (some "d") none)) none)
      (by decide) (by decide)

theorem dchar_toNat {d : Nat} (hd : d ≤ 9) : (dchar d).toNat = 48 + d := by
  interval_cases d <;> rfl

theorem eq_dchar_of_toNat {c : Char} {d : Nat} (h : c.toNat = 48 + d) :
    c = dchar d := by
  have h2 := Char.ofNat_toNat c
  rw [h] at h2
  exact h2.symm

theorem charBetween_eq_true {lo hi c : Char} :
    charBetween lo hi c = true ↔ lo.toNat ≤ c.toNat ∧ c.toNat ≤ hi.toNat := by
  simp [charBetween]

theorem toNat_char_zero : ('0').toNat = 48 := rfl

theorem toNat_char_nine : ('9').toNat = 57 := rfl

theorem toNat_char_five : ('5').toNat = 53 := rfl

theorem toNat_char_three : ('3').toNat = 51 := rfl

theorem timeRegexAccepts_iff (s : String) : timeRegexAccepts s = true ↔
      ((∃ h m : Nat, h ≤ 9 ∧ m ≤ 59 ∧
          s.data = [dchar h, ':', dchar (m / 10), dchar (m % 10)]) ∨
       (∃ h m : Nat, h ≤ 23 ∧ m ≤ 59 ∧
          s.data = [dchar (h / 10), dchar (h % 10), ':', dchar (m / 10), dchar (m % 10)])) := by
  obtain ⟨l⟩ := s
  rcases l with _ | ⟨c1, _ | ⟨c2, _ | ⟨c3, _ | ⟨c4, _ | ⟨c5, _ | ⟨c6, rest⟩⟩⟩⟩⟩⟩
  -- length 0
  · constructor
    · intro hacc; exact absurd hacc (by simp [timeRegexAccepts])
    · rintro (⟨h, m, -, -, heq⟩ | ⟨h, m, -, -, heq⟩) <;> simp at heq
  -- length 1
  · constructor
    · intro hacc; exact absurd hacc (by simp [timeRegexAccepts])
    · rintro (⟨h, m, -, -, heq⟩ | ⟨h, m, -, -, heq⟩) <;> simp at heq
  -- length 2
  · constructor
    · intro hacc; exact absurd hacc (by simp [timeRegexAccepts])
    · rintro (⟨h, m, -, -, heq⟩ | ⟨h, m, -, -, heq⟩) <;> simp at heq
  -- length 3
  · constructor
    · intro hacc; exact absurd hacc (by simp [timeRegexAccepts])
    · rintro (⟨h, m, -, -, heq⟩ | ⟨h, m, -, -, heq⟩) <;> simp at heq
  -- length 4
  · constructor
    · intro hacc
      simp only [timeRegexAccepts, Bool.and_eq_true, charBetween_eq_true,
        decide_eq_true_eq, toNat_char_zero, toNat_char_nine, toNat_char_five] at hacc
      obtain ⟨⟨⟨⟨h1a, h1b⟩, hcol⟩, h3a, h3b⟩, h4a, h4b⟩ := hacc
      refine Or.inl ⟨c1.toNat - 48, (c3.toNat - 48) * 10 + (c4.toNat - 48),
        by omega, by omega, ?_⟩
      have e1 : c1 = dchar (c1.toNat - 48) := eq_dchar_of_toNat (by omega)
      have e3 : c3 = dchar (((c3.toNat - 48) * 10 + (c4.toNat - 48)) / 10) :=
        eq_dchar_of_toNat (by omega)
      have e4 : c4 = dchar (((c3.toNat - 48) * 10 + (c4.toNat - 48)) % 10) :=
        eq_dchar_of_toNat (by omega)
      show [c1, c2, c3, c4] = _
      rw [← e1, ← e3, ← e4, ← hcol]
    · rintro (⟨h, m, hh, hm, heq⟩ | ⟨h, m, hh, hm, heq⟩)
      · have heq' : [c1, c2, c3, c4] = [dchar h, ':', dchar (m / 10), dchar (m % 10)] := heq
        obtain ⟨rfl, rfl, rfl, rfl⟩ :
            c1 = dchar h ∧ c2 = ':' ∧ c3 = dchar (m / 10) ∧ c4 = dchar (m % 10) := by
          simpa using heq'
        simp only [timeRegexAccepts, Bool.and_eq_true, charBetween_eq_true,
          decide_eq_true_eq, toNat_char_zero, toNat_char_nine, toNat_char_five,
          dchar_toNat hh, dchar_toNat (show m / 10 ≤ 9 by omega),
          dchar_toNat (show m % 10 ≤ 9 by omega), eq_self_iff_true, and_true, true_and]
        omega
      · have heq' : [c1, c2, c3, c4] =
            [dchar (h / 10), dchar (h % 10), ':', dchar (m / 10), dchar (m % 10)] := heq
        simp at heq'
  -- length 5
  · constructor
    · intro hacc
      simp only [timeRegexAccepts, Bool.and_eq_true, Bool.or_eq_true, charBetween_eq_true,
        decide_eq_true_eq, toNat_char_zero, toNat_char_nine, toNat_char_five,
        toNat_char_three] at hacc
      obtain ⟨⟨⟨halt, hcol⟩, h4a, h4b⟩, h5a, h5b⟩ := hacc
      have hc : 48 ≤ c1.toNat ∧ c1.toNat ≤ 50 ∧ 48 ≤ c2.toNat ∧ c2.toNat ≤ 57 ∧
          (c1.toNat = 50 → c2.toNat ≤ 51) := by
        rcases halt with (⟨hc1, hc2a, hc2b⟩ | ⟨hc1, hc2a, hc2b⟩) | ⟨hc1, hc2a, hc2b⟩
        · have h1n : c1.toNat = 48 := by rw [hc1]; rfl
          exact ⟨by omega, by omega, hc2a, hc2b, by omega⟩
        · have h1n : c1.toNat = 49 := by rw [hc1]; rfl
          exact ⟨by omega, by omega, hc2a, hc2b, by omega⟩
        · have h1n : c1.toNat = 50 := by rw [hc1]; rfl
          exact ⟨by omega, by omega, hc2a, by omega, by omega⟩
      obtain ⟨hb1, hb2, hb3, hb4, hb5⟩ := hc
      refine Or.inr ⟨(c1.toNat - 48) * 10 + (c2.toNat - 48),
        (c4.toNat - 48) * 10 + (c5.toNat - 48), by omega, by omega, ?_⟩
      have e1 : c1 = dchar (((c1.toNat - 48) * 10 + (c2.toNat - 48)) / 10) :=
        eq_dchar_of_toNat (by omega)
      have e2 : c2 = dchar (((c1.toNat - 48) * 10 + (c2.toNat - 48)) % 10) :=
        eq_dchar_of_toNat (by omega)
      have e4 : c4 = dchar (((c4.toNat - 48) * 10 + (c5.toNat - 48)) / 10) :=
        eq_dchar_of_toNat (by omega)
      have e5 : c5 = dchar (((c4.toNat - 48) * 10 + (c5.toNat - 48)) % 10) :=
        eq_dchar_of_toNat (by omega)
      show [c1, c2, c3, c4, c5] = _
      rw [← e1, ← e2, ← e4, ← e5, ← hcol]
    · rintro (⟨h, m, hh, hm, heq⟩ | ⟨h, m, hh, hm, heq⟩)
      · have heq' : [c1, c2, c3, c4, c5] =
            [dchar h, ':', dchar (m / 10), dchar (m % 10)] := heq
        simp at heq'
      · have heq' : [c1, c2, c3, c4, c5] =
            [dchar (h / 10), dchar (h % 10), ':', dchar (m / 10), dchar (m % 10)] := heq
        obtain ⟨rfl, rfl, rfl, rfl, rfl⟩ :
            c1 = dchar (h / 10) ∧ c2 = dchar (h % 10) ∧ c3 = ':' ∧
            c4 = dchar (m / 10) ∧ c5 = dchar (m % 10) := by simpa using heq'
        simp only [timeRegexAccepts, Bool.and_eq_true, Bool.or_eq_true,
          charBetween_eq_true, decide_eq_true_eq, toNat_char_zero, toNat_char_nine,
          toNat_char_five, toNat_char_three,
          dchar_toNat (show h % 10 ≤ 9 by omega),
          dchar_toNat (show m / 10 ≤ 9 by omega),
          dchar_toNat (show m % 10 ≤ 9 by omega), eq_self_iff_true, and_true, true_and]
        refine ⟨⟨?_, by omega⟩, by omega⟩
        rcases Nat.lt_or_ge h 10 with hr | hr
        · refine Or.inl (Or.inl ⟨?_, by omega, by omega⟩)
          rw [show h / 10 = 0 by omega]
          decide
        · rcases Nat.lt_or_ge h 20 with hr2 | hr2
          · refine Or.inl (Or.inr ⟨?_, by omega, by omega⟩)
            rw [show h / 10 = 1 by omega]
            decide
          · refine Or.inr ⟨?_, by omega, by omega⟩
            rw [show h / 10 = 2 by omega]
            decide
  -- length ≥ 6
  · constructor
    · intro hacc; exact absurd hacc (by simp [timeRegexAccepts])
    · rintro (⟨h, m, -, -, heq⟩ | ⟨h, m, -, -, heq⟩) <;> simp at heq


/-- Claim C9: the schema time-format regex accepts single-digit hours —
"9:15" matches — and the accepted strings are exactly those of the form
H:MM (one-digit hour 0–9) or HH:MM (two-digit hour 00–23) with minutes
00–59. -/
theorem c9_time_regex_single_digit_hour :
    timeRegexAccepts "9:15" = true ∧
    ∀ s : String, timeRegexAccepts s = true ↔
      ((∃ h m : Nat, h ≤ 9 ∧ m ≤ 59 ∧
          s.data = [dchar h, ':', dchar (m / 10), dchar (m % 10)]) ∨
       (∃ h m : Nat, h ≤ 23 ∧ m ≤ 59 ∧
          s.data = [dchar (h / 10), dchar (h % 10), ':', dchar (m / 10), dchar (m % 10)])) :=
  ⟨by decide, timeRegexAccepts_iff⟩

end Calendify
